import Mathlib

/-!
Verification of the hyperparameter-search workflow and the custom helper code of
the `handson-ml3` exercise notebooks.

The notebooks' own custom logic (`shift` image augmentation, the
`ExponentialLearningRate` callback) is embedded directly from the source.  The
model-selection workflow itself (grid / randomized search with k-fold
cross-validation) is executed by an external estimator library that is not part
of this repository; those definitions are modelled from the specification and
are marked as such in their doc comments.
-/

namespace HandsOnML

/- ## List utilities -/

/-- Split a list into consecutive segments of the given sizes. -/
def splitSizes {α : Type} : List ℕ → List α → List (List α)
  | [], _ => []
  | s :: ss, l => l.take s :: splitSizes ss (l.drop s)

theorem flatten_splitSizes {α : Type} (ss : List ℕ) (l : List α) :
    (splitSizes ss l).flatten = l.take ss.sum := by
  induction ss generalizing l with
  | nil => simp [splitSizes]
  | cons s ss ih => simp [splitSizes, ih, List.sum_cons, List.take_add]

theorem length_splitSizes {α : Type} (ss : List ℕ) (l : List α) :
    (splitSizes ss l).length = ss.length := by
  induction ss generalizing l with
  | nil => simp [splitSizes]
  | cons s ss ih => simp [splitSizes, ih]

theorem map_length_splitSizes {α : Type} (ss : List ℕ) (l : List α)
    (h : ss.sum ≤ l.length) :
    (splitSizes ss l).map List.length = ss := by
  induction ss generalizing l with
  | nil => simp [splitSizes]
  | cons s ss ih =>
      simp only [List.sum_cons] at h
      have hs : s ≤ l.length := by omega
      have hrest : ss.sum ≤ (l.drop s).length := by
        simp only [List.length_drop]; omega
      simp [splitSizes, ih _ hrest, List.length_take, Nat.min_eq_left hs]

/- ## Image shifting (`shift` from `03_mnist.ipynb`) -/

/-- The 28×28 reshape of a flat image vector (`image_data.reshape(28, 28)`),
as the list of its 28 rows. -/
def reshape28 (l : List ℚ) : List (List ℚ) :=
  splitSizes (List.replicate 28 28) l

/-- Horizontal step of `shift`: the two `np.hstack` branches on
`direction[0]`, translated slice-for-slice from the source. -/
def hshift (dx : ℤ) (rows : List (List ℚ)) : List (List ℚ) :=
  if 0 < dx then
    rows.map (fun r => List.replicate dx.toNat (0 : ℚ) ++ r.take (28 - dx.toNat))
  else if dx < 0 then
    rows.map (fun r => r.drop (-dx).toNat ++ List.replicate (-dx).toNat (0 : ℚ))
  else rows

/-- Vertical step of `shift`: the two `np.vstack` branches on `direction[1]`.
`none` models the `ValueError` `np.vstack` raises when the zero block's
width (28) does not match the current row width. -/
def vshift (dy : ℤ) (rows : List (List ℚ)) : Option (List (List ℚ)) :=
  if 0 < dy then
    if rows.all (fun r => r.length == 28) then
      some (rows.drop dy.toNat ++ List.replicate dy.toNat (List.replicate 28 (0 : ℚ)))
    else none
  else if dy < 0 then
    if rows.all (fun r => r.length == 28) then
      some (List.replicate (-dy).toNat (List.replicate 28 (0 : ℚ)) ++
        rows.take (rows.length - (-dy).toNat))
    else none
  else some rows

/-- `shift` from `03_mnist.ipynb`: reshape to 28×28, shift horizontally then
vertically with zero fill, flatten back to 784.  `none` models a raised numpy
error (initial reshape of a non-784 vector, incompatible stacking, or a final
`reshape(784)` of an array whose size is not 784). -/
def shift (image_data : List ℚ) (direction : ℤ × ℤ) : Option (List ℚ) :=
  if image_data.length = 784 then
    match vshift direction.2 (hshift direction.1 (reshape28 image_data)) with
    | some rows => if rows.flatten.length = 784 then some rows.flatten else none
    | none => none
  else none

theorem reshape28_flatten (l : List ℚ) (h : l.length = 784) :
    (reshape28 l).flatten = l := by
  have : (List.replicate 28 28).sum = 784 := by simp
  rw [reshape28, flatten_splitSizes, this, ← h, List.take_length]

theorem reshape28_rows (l : List ℚ) (h : l.length = 784) :
    (reshape28 l).length = 28 ∧ ∀ r ∈ reshape28 l, r.length = 28 := by
  have hsum : (List.replicate 28 28).sum ≤ l.length := by simp [h]
  have hmap := map_length_splitSizes (List.replicate 28 28) l hsum
  constructor
  · rw [reshape28, length_splitSizes]; simp
  · intro r hr
    have : r.length ∈ (reshape28 l).map List.length := List.mem_map_of_mem _ hr
    rw [reshape28, hmap] at this
    exact List.eq_of_mem_replicate this

theorem hshift_rows (dx : ℤ) (hdx : dx.natAbs ≤ 28) (rows : List (List ℚ))
    (h : ∀ r ∈ rows, r.length = 28) :
    (hshift dx rows).length = rows.length ∧ ∀ r ∈ hshift dx rows, r.length = 28 := by
  unfold hshift
  split_ifs with h1 h2
  · have hle : dx.toNat ≤ 28 := by omega
    refine ⟨by simp, ?_⟩
    intro r hr
    obtain ⟨r0, hr0, rfl⟩ := List.mem_map.mp hr
    have h28 : r0.length = 28 := h r0 hr0
    simp [List.length_take, h28]
    omega
  · have hle : (-dx).toNat ≤ 28 := by omega
    refine ⟨by simp, ?_⟩
    intro r hr
    obtain ⟨r0, hr0, rfl⟩ := List.mem_map.mp hr
    have h28 : r0.length = 28 := h r0 hr0
    simp [List.length_drop, h28]
    omega
  · exact ⟨rfl, h⟩

theorem vshift_rows (dy : ℤ) (hdy : dy.natAbs ≤ 28) (rows : List (List ℚ))
    (hlen : rows.length = 28) (h : ∀ r ∈ rows, r.length = 28) :
    ∃ rows2, vshift dy rows = some rows2 ∧ rows2.length = 28 ∧
      ∀ r ∈ rows2, r.length = 28 := by
  have hall : rows.all (fun r => r.length == 28) = true := by
    rw [List.all_eq_true]
    intro r hr
    simpa using h r hr
  unfold vshift
  split_ifs with h1 h2
  · have hle : dy.toNat ≤ 28 := by omega
    refine ⟨_, rfl, ?_, ?_⟩
    · simp [List.length_drop, hlen]; omega
    · intro r hr
      rcases List.mem_append.mp hr with hr | hr
      · exact h r (List.mem_of_mem_drop hr)
      · rw [List.eq_of_mem_replicate hr]; simp
  · have hle : (-dy).toNat ≤ 28 := by omega
    refine ⟨_, rfl, ?_, ?_⟩
    · simp [List.length_take, hlen]; omega
    · intro r hr
      rcases List.mem_append.mp hr with hr | hr
      · rw [List.eq_of_mem_replicate hr]; simp
      · exact h r (List.mem_of_mem_take hr)
  · exact ⟨rows, rfl, hlen, h⟩

theorem flatten_length_of_rows (rows : List (List ℚ)) (hlen : rows.length = 28)
    (h : ∀ r ∈ rows, r.length = 28) : rows.flatten.length = 784 := by
  rw [List.length_flatten]
  have : rows.map List.length = List.replicate 28 28 := by
    rw [List.eq_replicate_iff]
    refine ⟨by simp [hlen], ?_⟩
    intro n hn
    obtain ⟨r, hr, rfl⟩ := List.mem_map.mp hn
    exact h r hr
  rw [this]; simp

/-- C9 (corrected): the zero shift is the identity on any 784-element image,
and any shift with both components bounded by 28 in absolute value returns a
784-element vector.  (The unamended claim fails for larger shifts, where the
final `reshape(784)` raises.) -/
theorem shift_zero_id_and_bounded (image_data : List ℚ)
    (h : image_data.length = 784) :
    shift image_data (0, 0) = some image_data ∧
    ∀ dx dy : ℤ, dx.natAbs ≤ 28 → dy.natAbs ≤ 28 →
      ∃ out, shift image_data (dx, dy) = some out ∧ out.length = 784 := by
  constructor
  · have hid : hshift 0 (reshape28 image_data) = reshape28 image_data := by
      unfold hshift; simp
    have hv : vshift 0 (reshape28 image_data) = some (reshape28 image_data) := by
      unfold vshift; simp
    have hfl := reshape28_flatten image_data h
    simp only [shift, h, if_pos rfl, hid, hv, hfl]
    simp [h]
  · intro dx dy hdx hdy
    obtain ⟨hr28, hrows⟩ := reshape28_rows image_data h
    obtain ⟨hhlen, hhrows⟩ := hshift_rows dx hdx (reshape28 image_data) hrows
    obtain ⟨rows2, hv, hlen2, hrows2⟩ :=
      vshift_rows dy hdy _ (by rw [hhlen, hr28]) hhrows
    have hfl := flatten_length_of_rows rows2 hlen2 hrows2
    refine ⟨rows2.flatten, ?_, hfl⟩
    simp only [shift, h, if_pos rfl, hv, hfl]
    simp

/-- Witness for `shift_zero_id_and_bounded` at the all-zero image. -/
theorem shift_zero_id_and_bounded_witness :
    (List.replicate 784 (0 : ℚ)).length = 784 ∧
    (shift (List.replicate 784 (0 : ℚ)) (0, 0) = some (List.replicate 784 (0 : ℚ)) ∧
     ∀ dx dy : ℤ, dx.natAbs ≤ 28 → dy.natAbs ≤ 28 →
       ∃ out, shift (List.replicate 784 (0 : ℚ)) (dx, dy) = some out ∧
         out.length = 784) :=
  ⟨List.length_replicate 784 0,
   shift_zero_id_and_bounded (List.replicate 784 (0 : ℚ)) (List.length_replicate 784 0)⟩

set_option maxRecDepth 40000 in
/-- C9 counterexample: shifting a 784-element image by `(29, 0)` produces a
28×29 array, and the final `reshape(784)` fails, so no 784-element vector is
returned — the claim is false for unbounded directions. -/
theorem shift_overlarge_direction_fails :
    shift (List.replicate 784 (0 : ℚ)) (29, 0) = none := by decide

/- ## `ExponentialLearningRate` callback (`10.ipynb` and the text-model notebook) -/

/-- Observable state of the `ExponentialLearningRate` callback together with
the optimizer's learning rate and the training loop's stop flag.  The
callback's `losses` list only mirrors externally supplied loss values and is
not modelled. -/
structure ELRState (α : Type) where
  lr : α
  learning_rates : List α
  stop_training : Bool

/-- The state before `fit` is called: no rates recorded, training running.
The optimizer's initial learning rate is arbitrary (it is overwritten by
`on_train_begin`); `0` is used as the placeholder. -/
def elrInit (α : Type) [Zero α] : ELRState α := ⟨0, [], false⟩

/-- `on_train_begin`: sets the optimizer's learning rate to `starting_lr`. -/
def onTrainBegin {α : Type} (starting_lr : α) (s : ELRState α) : ELRState α :=
  { s with lr := starting_lr }

/-- `on_train_batch_end`: multiplies the current learning rate by `factor`,
sets `stop_training` if the updated rate exceeds `end_lr`, stores the updated
rate in the optimizer and appends it to `learning_rates`. -/
def onTrainBatchEnd {α : Type} [Mul α] [LinearOrder α] (factor end_lr : α)
    (s : ELRState α) : ELRState α :=
  { lr := s.lr * factor,
    learning_rates := s.learning_rates ++ [s.lr * factor],
    stop_training := if end_lr < s.lr * factor then true else s.stop_training }

/-- The Keras training loop as seen by the callback: it runs at most
`numBatches` training batches, checking `stop_training` before each batch and
invoking `on_train_batch_end` after each batch that runs. -/
def runTraining {α : Type} [Mul α] [LinearOrder α] (factor end_lr : α) :
    ℕ → ELRState α → ELRState α
  | 0, s => s
  | m + 1, s =>
      if s.stop_training then s
      else runTraining factor end_lr m (onTrainBatchEnd factor end_lr s)

/-- A full training run with the callback installed: `on_train_begin`, then up
to `numBatches` batches. -/
def elrRun {α : Type} [Mul α] [LinearOrder α] [Zero α]
    (starting_lr end_lr factor : α) (numBatches : ℕ) : ELRState α :=
  runTraining factor end_lr numBatches (onTrainBegin starting_lr (elrInit α))

theorem runTraining_closed {α : Type} [LinearOrderedField α]
    (f e s : α) (n : ℕ)
    (hthresh : ∀ t : ℕ, e < s * f ^ (t + 1) ↔ n ≤ t) :
    ∀ (m k : ℕ), k ≤ n + 1 →
      runTraining f e m
        ⟨s * f ^ k, (List.range k).map (fun t => s * f ^ (t + 1)),
          decide (n + 1 ≤ k)⟩ =
      ⟨s * f ^ min (k + m) (n + 1),
        (List.range (min (k + m) (n + 1))).map (fun t => s * f ^ (t + 1)),
        decide (n + 1 ≤ min (k + m) (n + 1))⟩ := by
  intro m
  induction m with
  | zero =>
      intro k hk
      have hmin : min (k + 0) (n + 1) = k := by omega
      rw [hmin]
      rfl
  | succ m ih =>
      intro k hk
      rw [runTraining]
      by_cases hstop : n + 1 ≤ k
      · have hdec : decide (n + 1 ≤ k) = true := by simp [hstop]
        rw [hdec]
        have hmin : min (k + (m + 1)) (n + 1) = k := by omega
        rw [hmin]
        simpa using hstop
      · have hdec : decide (n + 1 ≤ k) = false := by simp [hstop]
        rw [hdec]
        simp only [Bool.false_eq_true, if_false]
        have hpow : s * f ^ k * f = s * f ^ (k + 1) := by ring
        have hstep : onTrainBatchEnd f e
            ⟨s * f ^ k, (List.range k).map (fun t => s * f ^ (t + 1)), false⟩ =
            ⟨s * f ^ (k + 1), (List.range (k + 1)).map (fun t => s * f ^ (t + 1)),
              decide (n + 1 ≤ k + 1)⟩ := by
          unfold onTrainBatchEnd
          simp only [ELRState.mk.injEq]
          refine ⟨hpow, ?_, ?_⟩
          · rw [hpow, List.range_succ, List.map_append]
            rfl
          · rw [hpow]
            by_cases hnk : n ≤ k
            · have h1 : e < s * f ^ (k + 1) := (hthresh k).mpr hnk
              have h2 : decide (n + 1 ≤ k + 1) = true := by
                simp only [decide_eq_true_eq]
                omega
              rw [h2, if_pos h1]
            · have h1 : ¬ e < s * f ^ (k + 1) := fun hc => hnk ((hthresh k).mp hc)
              have h2 : decide (n + 1 ≤ k + 1) = false := by
                simp only [decide_eq_false_iff_not]
                omega
              rw [h2, if_neg h1]
        rw [hstep]
        have hk1 : k + 1 ≤ n + 1 := by omega
        rw [ih (k + 1) hk1]
        have harith : k + 1 + m = k + (m + 1) := by omega
        rw [harith]

theorem elrRun_closed {α : Type} [LinearOrderedField α]
    (f e s : α) (n m : ℕ)
    (hthresh : ∀ t : ℕ, e < s * f ^ (t + 1) ↔ n ≤ t) :
    elrRun s e f m =
      ⟨s * f ^ min m (n + 1),
        (List.range (min m (n + 1))).map (fun t => s * f ^ (t + 1)),
        decide (n + 1 ≤ min m (n + 1))⟩ := by
  have h0 : onTrainBegin s (elrInit α) =
      ⟨s * f ^ 0, (List.range 0).map (fun t => s * f ^ (t + 1)),
        decide (n + 1 ≤ 0)⟩ := by
    unfold onTrainBegin elrInit
    simp
  rw [elrRun, h0, runTraining_closed f e s n hthresh m 0 (by omega)]
  simp

theorem elr_threshold (s e : ℝ) (n : ℕ) (hs : 0 < s) (hse : s < e) (hn : 1 ≤ n) :
    ∀ t : ℕ, e < s * ((e / s) ^ ((n : ℝ))⁻¹) ^ (t + 1) ↔ n ≤ t := by
  intro t
  have hb0 : (0 : ℝ) < e / s := div_pos (lt_trans hs hse) hs
  have hb1 : (1 : ℝ) < e / s := (one_lt_div hs).mpr hse
  have hn0 : (0 : ℝ) < (n : ℝ) := by exact_mod_cast Nat.lt_of_lt_of_le Nat.zero_lt_one hn
  have hpow : ((e / s) ^ ((n : ℝ))⁻¹) ^ (t + 1) =
      (e / s) ^ (((n : ℝ))⁻¹ * ((t : ℝ) + 1)) := by
    rw [Real.rpow_mul (le_of_lt hb0)]
    rw [← Real.rpow_natCast ((e / s) ^ ((n : ℝ))⁻¹) (t + 1)]
    push_cast
    ring_nf
  constructor
  · intro h
    have h1 : e / s < ((e / s) ^ ((n : ℝ))⁻¹) ^ (t + 1) := by
      rw [div_lt_iff₀ hs]
      calc e < s * ((e / s) ^ ((n : ℝ))⁻¹) ^ (t + 1) := h
        _ = ((e / s) ^ ((n : ℝ))⁻¹) ^ (t + 1) * s := by ring
    rw [hpow] at h1
    have h2 : (e / s) ^ (1 : ℝ) < (e / s) ^ (((n : ℝ))⁻¹ * ((t : ℝ) + 1)) := by
      rwa [Real.rpow_one]
    have h3 : (1 : ℝ) < ((n : ℝ))⁻¹ * ((t : ℝ) + 1) :=
      (Real.rpow_lt_rpow_left_iff hb1).mp h2
    have h4 : (n : ℝ) < (t : ℝ) + 1 := by
      have := (mul_lt_mul_right hn0).mpr h3
      rw [one_mul, mul_comm, ← mul_assoc, mul_inv_cancel₀ (ne_of_gt hn0), one_mul] at this
      linarith
    have h5 : n < t + 1 := by exact_mod_cast h4
    omega
  · intro h
    have h4 : (n : ℝ) < (t : ℝ) + 1 := by
      have : (n : ℝ) ≤ (t : ℝ) := by exact_mod_cast h
      linarith
    have h3 : (1 : ℝ) < ((n : ℝ))⁻¹ * ((t : ℝ) + 1) := by
      rw [inv_mul_eq_div, lt_div_iff₀ hn0, one_mul]
      exact h4
    have h2 : (e / s) ^ (1 : ℝ) < (e / s) ^ (((n : ℝ))⁻¹ * ((t : ℝ) + 1)) :=
      (Real.rpow_lt_rpow_left_iff hb1).mpr h3
    rw [Real.rpow_one, ← hpow] at h2
    rw [div_lt_iff₀ hs] at h2
    calc e < ((e / s) ^ ((n : ℝ))⁻¹) ^ (t + 1) * s := h2
      _ = s * ((e / s) ^ ((n : ℝ))⁻¹) ^ (t + 1) := by ring

/-- C10: with `0 < starting_lr < end_lr` and `n_iter ≥ 1`, and
`factor = (end_lr / starting_lr) ** (1 / n_iter)`, a training run of `m`
batches records rate `starting_lr * factor ^ (t + 1)` after batch `t`, records
exactly `min m (n_iter + 1)` rates (hence at most `n_iter + 1`), the updated
rate first exceeds `end_lr` exactly on batch `n_iter`, and the stop flag is set
iff that batch was reached. -/
theorem exponential_lr_schedule (s e : ℝ) (n m : ℕ) (f : ℝ)
    (hs : 0 < s) (hse : s < e) (hn : 1 ≤ n)
    (hf : f = (e / s) ^ ((n : ℝ))⁻¹) :
    (elrRun s e f m).learning_rates =
      (List.range (min m (n + 1))).map (fun t => s * f ^ (t + 1)) ∧
    (elrRun s e f m).learning_rates.length ≤ n + 1 ∧
    (∀ t : ℕ, e < s * f ^ (t + 1) ↔ n ≤ t) ∧
    ((elrRun s e f m).stop_training = true ↔ n + 1 ≤ m) := by
  subst hf
  have hthresh := elr_threshold s e n hs hse hn
  have hclosed := elrRun_closed ((e / s) ^ ((n : ℝ))⁻¹) e s n m hthresh
  refine ⟨?_, ?_, hthresh, ?_⟩
  · rw [hclosed]
  · rw [hclosed]
    simp only [List.length_map, List.length_range]
    omega
  · rw [hclosed]
    simp only [decide_eq_true_eq]
    omega

/-- Witness for `exponential_lr_schedule` at
`starting_lr = 1`, `end_lr = 2`, `n_iter = 1`, `m = 3`, `factor = 2`. -/
theorem exponential_lr_schedule_witness :
    (elrRun (1 : ℝ) 2 2 3).learning_rates =
      (List.range (min 3 (1 + 1))).map (fun t => 1 * (2 : ℝ) ^ (t + 1)) ∧
    (elrRun (1 : ℝ) 2 2 3).learning_rates.length ≤ 1 + 1 ∧
    (∀ t : ℕ, (2 : ℝ) < 1 * 2 ^ (t + 1) ↔ 1 ≤ t) ∧
    ((elrRun (1 : ℝ) 2 2 3).stop_training = true ↔ 1 + 1 ≤ 3) := by
  have h2 : (2 : ℝ) = ((2 : ℝ) / 1) ^ (((1 : ℕ) : ℝ))⁻¹ := by
    norm_num
  exact h2 ▸ exponential_lr_schedule 1 2 1 3 2 (by norm_num) (by norm_num)
    (le_refl 1) h2

/- ## Model Selector

The search engine itself (grid / randomized hyperparameter search with k-fold
cross-validation) is an external estimator library; only its call sites exist
in this repository.  The following definitions are therefore modelled from the
specification's §3–§4 (data model and `search` contract). -/

/-- Modelled from the spec: the sizes of `k` "disjoint, roughly equal" folds of
`n` instances — the first `n % k` folds take one extra instance. -/
def foldSizes (n k : ℕ) : List ℕ :=
  (List.range k).map (fun j => n / k + if j < n % k then 1 else 0)

/-- Modelled from the spec: "partition training data into `cv_folds` disjoint,
roughly equal folds", as consecutive segments of the training list. -/
def kfolds {α : Type} (k : ℕ) (l : List α) : List (List α) :=
  splitSizes (foldSizes l.length k) l

/-- Modelled from the spec: the training portion for held-out fold `j` — "the
remaining folds" combined. -/
def foldComplement {α : Type} (folds : List (List α)) (j : ℕ) : List α :=
  (folds.take j ++ folds.drop (j + 1)).flatten

/-- Sequence a list of fallible computations, failing if any element fails. -/
def traverseOption {α β : Type} (f : α → Option β) : List α → Option (List β)
  | [] => some []
  | a :: l =>
      match f a, traverseOption f l with
      | some b, some bs => some (b :: bs)
      | _, _ => none

/-- Modelled from the spec: k-fold cross-validation — "for each fold, train on
the remaining folds and score on the held-out fold; average the fold scores".
`train` returns `none` on a numerical training failure, which makes the whole
candidate evaluation fail. -/
def cvScore {D M : Type} (train : List D → Option M) (score : M → List D → ℚ)
    (k : ℕ) (data : List D) : Option ℚ :=
  (traverseOption (fun j =>
      (train (foldComplement (kfolds k data) j)).map
        (fun mdl => score mdl ((kfolds k data).getD j []))) (List.range k)).map
    (fun scores => scores.sum / (k : ℚ))

/-- Modelled from the spec: a Candidate Result — "configuration + mean
cross-validation score"; `⊥` is the negative-infinity score of a failed
candidate. -/
structure CandidateResult (C : Type) where
  config : C
  score : WithBot ℚ
deriving DecidableEq

/-- Modelled from the spec: a candidate's recorded score — its cross-validation
score, or negative infinity (`⊥`) when its training failed, "caught
per-candidate". -/
def candidateScore {C D M : Type} (train : C → List D → Option M)
    (score : M → List D → ℚ) (k : ℕ) (data : List D) (c : C) : WithBot ℚ :=
  match cvScore (train c) score k data with
  | some s => (s : WithBot ℚ)
  | none => ⊥

/-- Modelled from the spec: the binary max-by-score reduction; a tie keeps the
earlier (first-encountered) candidate. -/
def betterOf {C : Type} (a b : CandidateResult C) : CandidateResult C :=
  if a.score < b.score then b else a

/-- Modelled from the spec: "the 'best' result is the maximum-scoring Candidate
Result over all evaluated candidates", computed by the max-by-score reduction
in evaluation order. -/
def selectBest {C : Type} : List (CandidateResult C) → Option (CandidateResult C)
  | [] => none
  | r :: rs => some (rs.foldl betterOf r)

/-- Modelled from the spec: the ranked result list — "ordering is by score,
descending; ties broken by first-encountered configuration (stable)". -/
def rankResults {C : Type} (l : List (CandidateResult C)) :
    List (CandidateResult C) :=
  l.mergeSort (fun a b => decide (b.score ≤ a.score))

/-- Modelled from the spec: the number of instances in the smallest class of a
labelled dataset (used by the stratified fold-count check). -/
def minClassCount {D L : Type} [DecidableEq L] (data : List (D × L)) : ℕ :=
  (((data.map Prod.snd).dedup).map
      (fun lab => (data.map Prod.snd).count lab)).foldr min data.length

/-- Modelled from the spec: the fatal error taxonomy of `search`. -/
inductive SearchError : Type where
  | configurationError : SearchError
  | insufficientDataError : SearchError
deriving DecidableEq

/-- Modelled from the spec: the output of a successful search — "the full
ranked list of Candidate Results (descending by score), the single best
configuration, and a Fitted Model obtained by retraining the estimator
template with the best configuration on the entire training partition". -/
structure SearchOutput (C M : Type) where
  ranked : List (CandidateResult C)
  best : Option (CandidateResult C)
  model : Option M

/-- Modelled from the spec: the search core shared by both strategies.  The
fold-count check runs before any candidate training (`InsufficientDataError`),
then parameter applicability (`ConfigurationError`); each surviving candidate
is scored by cross-validation, the results are ranked, and the best
configuration is refit on the whole training dataset. -/
def runSearch {C D L M : Type} [DecidableEq L]
    (train : C → List (D × L) → Option M) (score : M → List (D × L) → ℚ)
    (valid : C → Bool) (candidates : List C) (data : List (D × L))
    (k : ℕ) (stratified : Bool) :
    Except SearchError (SearchOutput C M) :=
  if (if stratified then minClassCount data else data.length) < k then
    Except.error SearchError.insufficientDataError
  else if candidates.all valid then
    Except.ok
      { ranked := rankResults (candidates.map (fun c =>
          ⟨c, candidateScore train score k data c⟩)),
        best := selectBest (candidates.map (fun c =>
          ⟨c, candidateScore train score k data c⟩)),
        model := (selectBest (candidates.map (fun c =>
          ⟨c, candidateScore train score k data c⟩))).bind
          (fun r => train r.config data) }
  else Except.error SearchError.configurationError

/-- Modelled from the spec: exhaustive search "enumerates the full cross
product of discrete domains" — one value picked per parameter. -/
def gridCandidates : List (List ℚ) → List (List ℚ)
  | [] => [[]]
  | d :: ds => d.flatMap (fun v => (gridCandidates ds).map (fun c => v :: c))

/-- Modelled from the spec: grid (exhaustive) search. -/
def gridSearch {D L M : Type} [DecidableEq L]
    (train : List ℚ → List (D × L) → Option M) (score : M → List (D × L) → ℚ)
    (valid : List ℚ → Bool) (domains : List (List ℚ)) (data : List (D × L))
    (k : ℕ) (stratified : Bool) :
    Except SearchError (SearchOutput (List ℚ) M) :=
  runSearch train score valid (gridCandidates domains) data k stratified

theorem length_gridCandidates (domains : List (List ℚ)) :
    (gridCandidates domains).length = (domains.map List.length).prod := by
  induction domains with
  | nil => simp [gridCandidates]
  | cons d ds ih =>
      simp [gridCandidates, List.length_flatMap, ih, Function.comp_def,
        List.map_const', List.sum_replicate, Nat.smul_one_eq_cast]

theorem betterOf_score {C : Type} (a b : CandidateResult C) :
    (betterOf a b).score = max a.score b.score := by
  unfold betterOf
  rcases lt_trichotomy a.score b.score with h | h | h
  · rw [if_pos h, max_eq_right (le_of_lt h)]
  · rw [if_neg (by rw [h]; exact lt_irrefl _), max_eq_left (le_of_eq h.symm)]
  · rw [if_neg (not_lt_of_gt h), max_eq_left (le_of_lt h)]

theorem betterOf_of_lt {C : Type} {a b : CandidateResult C}
    (h : a.score < b.score) : betterOf a b = b := if_pos h

theorem betterOf_of_not_lt {C : Type} {a b : CandidateResult C}
    (h : ¬ a.score < b.score) : betterOf a b = a := if_neg h

theorem foldl_betterOf_score {C : Type} (rs : List (CandidateResult C))
    (r : CandidateResult C) :
    (rs.foldl betterOf r).score =
      (rs.map CandidateResult.score).foldl max r.score := by
  induction rs generalizing r with
  | nil => rfl
  | cons x xs ih =>
      simp only [List.foldl_cons, List.map_cons]
      rw [ih, betterOf_score]

theorem selectBest_score {C : Type} (l : List (CandidateResult C)) :
    (selectBest l).map CandidateResult.score =
      (l.map CandidateResult.score).max? := by
  cases l with
  | nil => rfl
  | cons r rs =>
      show some ((rs.foldl betterOf r).score) =
        ((r :: rs).map CandidateResult.score).max?
      have hdef : ((r :: rs).map CandidateResult.score).max? =
          some ((rs.map CandidateResult.score).foldl max r.score) := rfl
      rw [hdef, foldl_betterOf_score]

theorem max?_perm_withBot (l₁ l₂ : List (WithBot ℚ)) (h : l₁.Perm l₂) :
    l₁.max? = l₂.max? := by
  haveI : RightCommutative (max : WithBot ℚ → WithBot ℚ → WithBot ℚ) :=
    ⟨fun b a₁ a₂ => by rw [max_assoc, max_comm a₁ a₂, ← max_assoc]⟩
  cases l₁ with
  | nil =>
      rw [h.symm.eq_nil]
  | cons x xs =>
      cases l₂ with
      | nil => exact absurd h.eq_nil (by simp)
      | cons y ys =>
          have h1 : (x :: xs).max? = some (List.foldl max ⊥ (x :: xs)) := by
            show some (xs.foldl max x) = _
            rw [List.foldl_cons, max_eq_right bot_le]
          have h2 : (y :: ys).max? = some (List.foldl max ⊥ (y :: ys)) := by
            show some (ys.foldl max y) = _
            rw [List.foldl_cons, max_eq_right bot_le]
          rw [h1, h2, List.Perm.foldl_eq h ⊥]

theorem selectBest_perm_score {C : Type} (l₁ l₂ : List (CandidateResult C))
    (h : l₁.Perm l₂) :
    (selectBest l₁).map CandidateResult.score =
      (selectBest l₂).map CandidateResult.score := by
  rw [selectBest_score, selectBest_score]
  exact max?_perm_withBot _ _ (h.map _)

theorem betterOf_assoc {C : Type} (a b c : CandidateResult C) :
    betterOf (betterOf a b) c = betterOf a (betterOf b c) := by
  by_cases hab : a.score < b.score
  · rw [betterOf_of_lt hab]
    by_cases hbc : b.score < c.score
    · rw [betterOf_of_lt hbc, betterOf_of_lt (lt_trans hab hbc)]
    · rw [betterOf_of_not_lt hbc, betterOf_of_lt hab]
  · rw [betterOf_of_not_lt hab]
    by_cases hbc : b.score < c.score
    · rw [betterOf_of_lt hbc]
    · rw [betterOf_of_not_lt hbc, betterOf_of_not_lt hab,
        betterOf_of_not_lt (fun hac => hbc (lt_of_le_of_lt (not_lt.mp hab) hac))]

theorem foldl_betterOf_of_le {C : Type} (rs : List (CandidateResult C))
    (r : CandidateResult C) (h : ∀ x ∈ rs, x.score ≤ r.score) :
    rs.foldl betterOf r = r := by
  induction rs with
  | nil => rfl
  | cons x xs ih =>
      rw [List.foldl_cons,
        betterOf_of_not_lt (not_lt.mpr (h x (List.mem_cons_self x xs)))]
      exact ih (fun y hy => h y (List.mem_cons_of_mem x hy))

theorem foldl_betterOf_acc_irrelevant {C : Type} :
    ∀ (xs : List (CandidateResult C)) (a b : CandidateResult C),
      (∃ y ∈ xs, a.score < y.score ∧ b.score < y.score) →
      xs.foldl betterOf a = xs.foldl betterOf b := by
  intro xs
  induction xs with
  | nil =>
      rintro a b ⟨y, hy, -, -⟩
      cases hy
  | cons z zs ih =>
      rintro a b ⟨y, hy, hay, hby⟩
      simp only [List.foldl_cons]
      rcases List.mem_cons.mp hy with rfl | hy'
      · rw [betterOf_of_lt hay, betterOf_of_lt hby]
      · by_cases haz : a.score < z.score
        · by_cases hbz : b.score < z.score
          · rw [betterOf_of_lt haz, betterOf_of_lt hbz]
          · rw [betterOf_of_lt haz, betterOf_of_not_lt hbz]
            exact ih z b ⟨y, hy', lt_of_le_of_lt (not_lt.mp hbz) hby, hby⟩
        · by_cases hbz : b.score < z.score
          · rw [betterOf_of_not_lt haz, betterOf_of_lt hbz]
            exact ih a z ⟨y, hy', hay, lt_of_le_of_lt (not_lt.mp haz) hay⟩
          · rw [betterOf_of_not_lt haz, betterOf_of_not_lt hbz]
            exact ih a b ⟨y, hy', hay, hby⟩

theorem find?_congr_on {α : Type} (l : List α) (p q : α → Bool)
    (h : ∀ a ∈ l, p a = q a) : l.find? p = l.find? q := by
  induction l with
  | nil => rfl
  | cons x xs ih =>
      have hx := h x (List.mem_cons_self x xs)
      by_cases hp : p x = true
      · rw [List.find?_cons_of_pos _ hp, List.find?_cons_of_pos _ (hx ▸ hp)]
      · rw [List.find?_cons_of_neg _ hp, List.find?_cons_of_neg _ (hx ▸ hp)]
        exact ih (fun a ha => h a (List.mem_cons_of_mem x ha))

theorem selectBest_eq_find? {C : Type} (l : List (CandidateResult C)) :
    selectBest l = l.find? (fun r => decide (∀ x ∈ l, x.score ≤ r.score)) := by
  induction l with
  | nil => rfl
  | cons r rs ih =>
      by_cases h : ∀ x ∈ rs, x.score ≤ r.score
      · have hmax : ∀ x ∈ r :: rs, x.score ≤ r.score := by
          intro x hx
          rcases List.mem_cons.mp hx with rfl | hx'
          · exact le_refl _
          · exact h x hx'
        rw [@List.find?_cons_of_pos _
          (fun x => decide (∀ z ∈ r :: rs, z.score ≤ x.score)) r rs
          (by simpa using hmax)]
        show some (rs.foldl betterOf r) = some r
        rw [foldl_betterOf_of_le rs r h]
      · push_neg at h
        obtain ⟨y, hy, hylt⟩ := h
        have hhead : ¬ (decide (∀ x ∈ r :: rs, x.score ≤ r.score)) = true := by
          simp only [decide_eq_true_eq, not_forall]
          exact ⟨y, List.mem_cons_of_mem r hy, not_le_of_gt hylt⟩
        rw [@List.find?_cons_of_neg _
          (fun x => decide (∀ z ∈ r :: rs, z.score ≤ x.score)) r rs hhead]
        have hcong : ∀ a ∈ rs,
            (fun x => decide (∀ z ∈ r :: rs, z.score ≤ x.score)) a =
            (fun x => decide (∀ z ∈ rs, z.score ≤ x.score)) a := by
          intro a ha
          by_cases hP : ∀ z ∈ rs, z.score ≤ a.score
          · have hall : ∀ z ∈ r :: rs, z.score ≤ a.score := by
              intro z hz
              rcases List.mem_cons.mp hz with rfl | hz'
              · exact le_trans (le_of_lt hylt) (hP y hy)
              · exact hP z hz'
            simp only [decide_eq_true_eq]
            simp [hall, hP]
          · have hnall : ¬ ∀ z ∈ r :: rs, z.score ≤ a.score :=
              fun hall => hP (fun z hz => hall z (List.mem_cons_of_mem r hz))
            simp only [decide_eq_true_eq]
            simp [hnall, hP]
        rw [find?_congr_on rs _ _ hcong, ← ih]
        cases rs with
        | nil => cases hy
        | cons x xs =>
            show some ((x :: xs).foldl betterOf r) = some (xs.foldl betterOf x)
            rw [List.foldl_cons]
            by_cases hrx : r.score < x.score
            · rw [betterOf_of_lt hrx]
            · rw [betterOf_of_not_lt hrx]
              have hy' : y ∈ xs := by
                rcases List.mem_cons.mp hy with rfl | h'
                · exact absurd hylt hrx
                · exact h'
              exact congrArg some (foldl_betterOf_acc_irrelevant xs r x
                ⟨y, hy', hylt, lt_of_le_of_lt (not_lt.mp hrx) hylt⟩)

theorem traverseOption_eq_some {α β : Type} (f : α → Option β) (g : α → β)
    (l : List α) (h : ∀ a ∈ l, f a = some (g a)) :
    traverseOption f l = some (l.map g) := by
  induction l with
  | nil => rfl
  | cons x xs ih =>
      rw [traverseOption, h x (List.mem_cons_self x xs),
        ih (fun a ha => h a (List.mem_cons_of_mem x ha))]
      rfl

theorem traverseOption_range_none {β : Type} (f : ℕ → Option β) (k : ℕ)
    (hk : 1 ≤ k) (h : f 0 = none) :
    traverseOption f (List.range k) = none := by
  obtain ⟨j, rfl⟩ : ∃ j, k = j + 1 := ⟨k - 1, by omega⟩
  rw [List.range_succ_eq_map, traverseOption, h]

theorem sum_map_range_ite (a r k : ℕ) :
    ((List.range k).map (fun j => a + if j < r then 1 else 0)).sum =
      k * a + min r k := by
  induction k with
  | zero => simp
  | succ k ih =>
      rw [List.range_succ, List.map_append, List.sum_append, ih]
      have hmul : (k + 1) * a = k * a + a := by ring
      by_cases h : k < r
      · simp only [if_pos h, List.map_cons, List.map_nil, List.sum_cons,
          List.sum_nil]
        omega
      · simp only [if_neg h, List.map_cons, List.map_nil, List.sum_cons,
          List.sum_nil]
        omega

theorem sum_foldSizes (n k : ℕ) (hk : 1 ≤ k) : (foldSizes n k).sum = n := by
  rw [foldSizes, sum_map_range_ite]
  have h1 : n % k < k := Nat.mod_lt n (by omega)
  have h2 := Nat.div_add_mod n k
  omega

theorem kfolds_length {α : Type} (k : ℕ) (l : List α) :
    (kfolds k l).length = k := by
  rw [kfolds, length_splitSizes, foldSizes, List.length_map, List.length_range]

theorem kfolds_flatten {α : Type} (k : ℕ) (l : List α) (hk : 1 ≤ k) :
    (kfolds k l).flatten = l := by
  rw [kfolds, flatten_splitSizes, sum_foldSizes _ _ hk, List.take_length]

theorem kfolds_sizes {α : Type} (k : ℕ) (l : List α) :
    ∀ f1 ∈ kfolds k l, ∀ f2 ∈ kfolds k l, f1.length ≤ f2.length + 1 := by
  intro f1 h1 f2 h2
  by_cases hk : 1 ≤ k
  case neg =>
    have : k = 0 := by omega
    subst this
    rw [kfolds] at h1
    simp [foldSizes, splitSizes] at h1
  have hsum : (foldSizes l.length k).sum ≤ l.length := by
    rw [sum_foldSizes _ _ hk]
  have hmap := map_length_splitSizes (foldSizes l.length k) l hsum
  have hmem : ∀ f ∈ kfolds k l,
      l.length / k ≤ f.length ∧ f.length ≤ l.length / k + 1 := by
    intro f hf
    have : f.length ∈ (kfolds k l).map List.length := List.mem_map_of_mem _ hf
    rw [kfolds, hmap, foldSizes] at this
    obtain ⟨j, -, hj⟩ := List.mem_map.mp this
    by_cases hjr : j < l.length % k
    · rw [if_pos hjr] at hj
      omega
    · rw [if_neg hjr] at hj
      omega
  obtain ⟨ha1, hb1⟩ := hmem f1 h1
  obtain ⟨ha2, hb2⟩ := hmem f2 h2
  omega

theorem cvScore_eq_average {D M : Type} (train : List D → Option M)
    (score : M → List D → ℚ) (k : ℕ) (data : List D) (s : ℕ → ℚ)
    (h : ∀ j < k, (train (foldComplement (kfolds k data) j)).map
        (fun mdl => score mdl ((kfolds k data).getD j [])) = some (s j)) :
    cvScore train score k data =
      some (((List.range k).map s).sum / (k : ℚ)) := by
  rw [cvScore, traverseOption_eq_some _ s _
    (fun j hj => h j (List.mem_range.mp hj))]
  rfl

/-- C1: exhaustive (grid) search evaluates exactly as many candidates as the
full cross product of the discrete parameter domains, and the returned best
score equals the maximum cross-validation score over all evaluated
candidates. -/
theorem gridSearch_evaluates_full_grid {D L M : Type} [DecidableEq L]
    (train : List ℚ → List (D × L) → Option M) (score : M → List (D × L) → ℚ)
    (valid : List ℚ → Bool) (domains : List (List ℚ)) (data : List (D × L))
    (k : ℕ) (stratified : Bool)
    (hdata : ¬ (if stratified then minClassCount data else data.length) < k)
    (hvalid : (gridCandidates domains).all valid = true) :
    ∃ out, gridSearch train score valid domains data k stratified =
        Except.ok out ∧
      out.ranked.length = (domains.map List.length).prod ∧
      out.best.map CandidateResult.score =
        ((gridCandidates domains).map
          (fun c => candidateScore train score k data c)).max? := by
  rw [gridSearch, runSearch, if_neg hdata, if_pos hvalid]
  refine ⟨_, rfl, ?_, ?_⟩
  · rw [rankResults, List.length_mergeSort, List.length_map,
      length_gridCandidates]
  · rw [selectBest_score, List.map_map]
    rfl

/-- Witness for `gridSearch_evaluates_full_grid`: the spec's end-to-end
example, grid `{param: [1, 2, 3]}` with a deterministic scoring stub. -/
theorem gridSearch_evaluates_full_grid_witness :
    (¬ (if false then minClassCount [((0 : ℕ), (0 : ℕ))]
        else [((0 : ℕ), (0 : ℕ))].length) < 1) ∧
    (gridCandidates [[(1 : ℚ), 2, 3]]).all (fun _ => true) = true ∧
    ∃ out, gridSearch (fun c _ => some c)
          (fun m _ => if m = [2] then 1 else 0) (fun _ => true)
          [[(1 : ℚ), 2, 3]] [((0 : ℕ), (0 : ℕ))] 1 false = Except.ok out ∧
        out.ranked.length = ([[(1 : ℚ), 2, 3]].map List.length).prod ∧
        out.best.map CandidateResult.score =
          ((gridCandidates [[(1 : ℚ), 2, 3]]).map
            (fun c => candidateScore (fun c2 _ => some c2)
              (fun m _ => if m = [2] then 1 else 0) 1
              [((0 : ℕ), (0 : ℕ))] c)).max? :=
  ⟨by decide, by decide,
    gridSearch_evaluates_full_grid (fun c _ => some c)
      (fun m _ => if m = [2] then 1 else 0) (fun _ => true)
      [[(1 : ℚ), 2, 3]] [((0 : ℕ), (0 : ℕ))] 1 false (by decide) (by decide)⟩

/-- C2: a candidate whose training always raises is recorded in the ranked
result list with score negative infinity (`⊥`); every other candidate is still
evaluated and scored; the search returns normally instead of aborting. -/
theorem search_isolates_candidate_failure {D L M : Type} [DecidableEq L]
    (train : List ℚ → List (D × L) → Option M) (score : M → List (D × L) → ℚ)
    (valid : List ℚ → Bool) (domains : List (List ℚ)) (data : List (D × L))
    (k : ℕ) (stratified : Bool) (c : List ℚ)
    (hdata : ¬ (if stratified then minClassCount data else data.length) < k)
    (hvalid : (gridCandidates domains).all valid = true) (hk : 1 ≤ k)
    (hc : c ∈ gridCandidates domains) (hfail : ∀ d, train c d = none) :
    ∃ out, gridSearch train score valid domains data k stratified =
        Except.ok out ∧
      (⟨c, ⊥⟩ : CandidateResult (List ℚ)) ∈ out.ranked ∧
      (∀ c2 ∈ gridCandidates domains,
        (⟨c2, candidateScore train score k data c2⟩ :
          CandidateResult (List ℚ)) ∈ out.ranked) ∧
      out.ranked.length = (gridCandidates domains).length := by
  rw [gridSearch, runSearch, if_neg hdata, if_pos hvalid]
  have hbot : candidateScore train score k data c = ⊥ := by
    rw [candidateScore]
    have hnone : cvScore (train c) score k data = none := by
      rw [cvScore, traverseOption_range_none _ k hk (by rw [hfail]; rfl)]
      rfl
    rw [hnone]
  refine ⟨_, rfl, ?_, ?_, ?_⟩
  · rw [rankResults]
    refine List.mem_mergeSort.mpr ?_
    rw [← hbot]
    exact List.mem_map_of_mem _ hc
  · intro c2 hc2
    rw [rankResults]
    exact List.mem_mergeSort.mpr (List.mem_map_of_mem _ hc2)
  · rw [rankResults, List.length_mergeSort, List.length_map]

/-- Witness for `search_isolates_candidate_failure`: grid `{param: [1, 2]}`
where the candidate `[1]` always fails to train. -/
theorem search_isolates_candidate_failure_witness :
    ∃ out, gridSearch (fun c (_ : List (ℕ × ℕ)) =>
          if c = [(1 : ℚ)] then none else some c)
        (fun _ _ => (0 : ℚ)) (fun _ => true) [[(1 : ℚ), 2]]
        [((0 : ℕ), (0 : ℕ))] 1 false = Except.ok out ∧
      (⟨[(1 : ℚ)], ⊥⟩ : CandidateResult (List ℚ)) ∈ out.ranked ∧
      (∀ c2 ∈ gridCandidates [[(1 : ℚ), 2]],
        (⟨c2, candidateScore (fun c (_ : List (ℕ × ℕ)) =>
            if c = [(1 : ℚ)] then none else some c)
          (fun _ _ => (0 : ℚ)) 1 [((0 : ℕ), (0 : ℕ))] c2⟩ :
          CandidateResult (List ℚ)) ∈ out.ranked) ∧
      out.ranked.length = (gridCandidates [[(1 : ℚ), 2]]).length :=
  search_isolates_candidate_failure
    (fun c _ => if c = [(1 : ℚ)] then none else some c)
    (fun _ _ => (0 : ℚ)) (fun _ => true) [[(1 : ℚ), 2]]
    [((0 : ℕ), (0 : ℕ))] 1 false [(1 : ℚ)] (by decide) (by decide)
    (by decide) (by decide) (fun d => by simp)

/-- C3: on success, the fitted model in the output is the estimator template
retrained with the best configuration on the whole training dataset — which
is exactly all the cross-validation folds combined. -/
theorem search_refits_best_on_full_training {D L M : Type} [DecidableEq L]
    (train : List ℚ → List (D × L) → Option M) (score : M → List (D × L) → ℚ)
    (valid : List ℚ → Bool) (domains : List (List ℚ)) (data : List (D × L))
    (k : ℕ) (stratified : Bool)
    (hdata : ¬ (if stratified then minClassCount data else data.length) < k)
    (hvalid : (gridCandidates domains).all valid = true) (hk : 1 ≤ k) :
    ∃ out, gridSearch train score valid domains data k stratified =
        Except.ok out ∧
      (∀ r, out.best = some r → out.model = train r.config data) ∧
      (kfolds k data).flatten = data := by
  rw [gridSearch, runSearch, if_neg hdata, if_pos hvalid]
  refine ⟨_, rfl, ?_, kfolds_flatten k data hk⟩
  intro r hr
  dsimp only at hr ⊢
  rw [hr]
  rfl

/-- Witness for `search_refits_best_on_full_training`. -/
theorem search_refits_best_on_full_training_witness :
    ∃ out, gridSearch (fun c (_ : List (ℕ × ℕ)) => some c)
        (fun _ _ => (0 : ℚ)) (fun _ => true) [[(1 : ℚ), 2]]
        [((0 : ℕ), (0 : ℕ))] 1 false = Except.ok out ∧
      (∀ r, out.best = some r →
        out.model = (fun c (_ : List (ℕ × ℕ)) => some c) r.config
          [((0 : ℕ), (0 : ℕ))]) ∧
      (kfolds 1 [((0 : ℕ), (0 : ℕ))]).flatten = [((0 : ℕ), (0 : ℕ))] :=
  search_refits_best_on_full_training (fun c _ => some c)
    (fun _ _ => (0 : ℚ)) (fun _ => true) [[(1 : ℚ), 2]]
    [((0 : ℕ), (0 : ℕ))] 1 false (by decide) (by decide) (by decide)

/-- C4: whenever `cv_folds` exceeds the number of instances in the smallest
class (stratified) or in the dataset overall (unstratified), the search fails
with `InsufficientDataError`.  The statement holds for every `train`
collaborator, so the failure cannot depend on — and happens without — any
candidate training, and no candidate result is produced. -/
theorem search_insufficient_data_fails_fast {C D L M : Type} [DecidableEq L]
    (train : C → List (D × L) → Option M) (score : M → List (D × L) → ℚ)
    (valid : C → Bool) (candidates : List C) (data : List (D × L))
    (k : ℕ) (stratified : Bool)
    (h : (stratified = true ∧ minClassCount data < k) ∨
         (stratified = false ∧ data.length < k)) :
    runSearch train score valid candidates data k stratified =
      Except.error SearchError.insufficientDataError := by
  rcases h with ⟨hs, hlt⟩ | ⟨hs, hlt⟩ <;> subst hs <;>
    rw [runSearch] <;> simp [hlt]

/-- Witness for `search_insufficient_data_fails_fast`: 3 stratified folds on a
dataset whose smallest class has a single instance. -/
theorem search_insufficient_data_fails_fast_witness :
    ((true = true ∧ minClassCount [((0 : ℕ), (0 : ℕ)), (1, 0), (2, 1)] < 3) ∨
      (true = false ∧
        ([((0 : ℕ), (0 : ℕ)), (1, 0), (2, 1)] : List (ℕ × ℕ)).length < 3)) ∧
    runSearch (fun (c : ℕ) (_ : List (ℕ × ℕ)) => some c) (fun _ _ => (0 : ℚ))
        (fun _ => true) [0, 1] [((0 : ℕ), (0 : ℕ)), (1, 0), (2, 1)] 3 true =
      Except.error SearchError.insufficientDataError :=
  ⟨Or.inl ⟨rfl, by decide⟩,
    search_insufficient_data_fails_fast (fun c _ => some c) (fun _ _ => (0 : ℚ))
      (fun _ => true) [0, 1] [((0 : ℕ), (0 : ℕ)), (1, 0), (2, 1)] 3 true
      (Or.inl ⟨rfl, by decide⟩)⟩

/-- C7: the max-by-score reduction is associative and commutes on the winning
score; the winning score is invariant under any permutation of the evaluation
order; and the winner is exactly the first-encountered candidate attaining
the maximum score (the documented tie-breaking rule). -/
theorem best_selection_order_invariant {C : Type} :
    (∀ a b c : CandidateResult C,
      betterOf (betterOf a b) c = betterOf a (betterOf b c)) ∧
    (∀ a b : CandidateResult C,
      (betterOf a b).score = (betterOf b a).score) ∧
    (∀ l₁ l₂ : List (CandidateResult C), l₁.Perm l₂ →
      (selectBest l₁).map CandidateResult.score =
        (selectBest l₂).map CandidateResult.score) ∧
    (∀ l : List (CandidateResult C),
      selectBest l = l.find? (fun r => decide (∀ x ∈ l, x.score ≤ r.score))) := by
  refine ⟨betterOf_assoc, ?_, selectBest_perm_score, selectBest_eq_find?⟩
  intro a b
  rw [betterOf_score, betterOf_score, max_comm]

/-- Witness for `best_selection_order_invariant`: on a two-element tie the
reduction keeps the first-encountered candidate. -/
theorem best_selection_order_invariant_witness :
    selectBest [(⟨0, ((1 : ℚ) : WithBot ℚ)⟩ : CandidateResult ℕ), ⟨1, ((1 : ℚ) : WithBot ℚ)⟩] =
      List.find? (fun r => decide (∀ x ∈
        [(⟨0, ((1 : ℚ) : WithBot ℚ)⟩ : CandidateResult ℕ), ⟨1, ((1 : ℚ) : WithBot ℚ)⟩],
          x.score ≤ r.score))
        [⟨0, ((1 : ℚ) : WithBot ℚ)⟩, ⟨1, ((1 : ℚ) : WithBot ℚ)⟩] :=
  (@best_selection_order_invariant ℕ).2.2.2
    [⟨0, ((1 : ℚ) : WithBot ℚ)⟩, ⟨1, ((1 : ℚ) : WithBot ℚ)⟩]

/-- C8: the `k` folds are `k` segments whose concatenation is exactly the
training list (so every instance lies in exactly one held-out fold and is
scored exactly once), fold sizes differ by at most one, and the candidate's
cross-validation score is the average of the `k` fold scores. -/
theorem cross_validation_partitions {D M : Type} (train : List D → Option M)
    (score : M → List D → ℚ) (k : ℕ) (data : List D) (s : ℕ → ℚ) (hk : 1 ≤ k)
    (h : ∀ j < k, (train (foldComplement (kfolds k data) j)).map
        (fun mdl => score mdl ((kfolds k data).getD j [])) = some (s j)) :
    (kfolds k data).length = k ∧
    (kfolds k data).flatten = data ∧
    (∀ f1 ∈ kfolds k data, ∀ f2 ∈ kfolds k data, f1.length ≤ f2.length + 1) ∧
    cvScore train score k data =
      some (((List.range k).map s).sum / (k : ℚ)) :=
  ⟨kfolds_length k data, kfolds_flatten k data hk, kfolds_sizes k data,
    cvScore_eq_average train score k data s h⟩

/-- Witness for `cross_validation_partitions`: 2 folds over 3 instances with a
constant scorer. -/
theorem cross_validation_partitions_witness :
    (kfolds 2 [(1 : ℕ), 2, 3]).length = 2 ∧
    (kfolds 2 [(1 : ℕ), 2, 3]).flatten = [(1 : ℕ), 2, 3] ∧
    (∀ f1 ∈ kfolds 2 [(1 : ℕ), 2, 3], ∀ f2 ∈ kfolds 2 [(1 : ℕ), 2, 3],
      f1.length ≤ f2.length + 1) ∧
    cvScore (fun _ => some (0 : ℕ)) (fun _ _ => (1 : ℚ)) 2 [(1 : ℕ), 2, 3] =
      some (((List.range 2).map (fun _ => (1 : ℚ))).sum / (2 : ℚ)) :=
  cross_validation_partitions (fun _ => some (0 : ℕ)) (fun _ _ => (1 : ℚ)) 2
    [(1 : ℕ), 2, 3] (fun _ => (1 : ℚ)) (by decide) (by decide)

/- ## Randomized search (modelled from the spec) -/

/-- Modelled from the spec: a declared parameter domain — "either an explicit
finite set of values or a continuous sampling distribution with bounds", the
continuous distribution being uniform or log-uniform over the declared
bounds. -/
inductive ParamDomain : Type where
  | discreteSet : List ℚ → ParamDomain
  | uniformRange : ℚ → ℚ → ParamDomain
  | logUniformRange : ℚ → ℚ → ParamDomain

/-- Modelled from the spec: a named parameter together with its declared
domain. -/
structure ParamSpec : Type where
  name : String
  domain : ParamDomain

/-- Modelled from the spec: inverse-transform sampling of one parameter from a
unit variate `u ∈ [0, 1)`: a discrete set is sampled uniformly by index
(`⌊u·n⌋`-th value); a continuous range through the uniform, resp. log-uniform,
inverse CDF over the declared bounds. -/
noncomputable def sampleDomain : ParamDomain → ℚ → ℝ
  | ParamDomain.discreteSet vs, u =>
      ((vs.getD ((u * vs.length).num / (u * vs.length).den).toNat 0 : ℚ) : ℝ)
  | ParamDomain.uniformRange lo hi, u =>
      (lo : ℝ) + (u : ℝ) * ((hi : ℝ) - (lo : ℝ))
  | ParamDomain.logUniformRange lo hi, u =>
      Real.exp (Real.log (lo : ℝ) +
        (u : ℝ) * (Real.log (hi : ℝ) - Real.log (lo : ℝ)))

/-- Modelled from the spec: the seeded pseudo-random source — state `i` of a
linear congruential generator seeded with `seed`. -/
def lcgState (seed : ℕ) : ℕ → ℕ
  | 0 => (1664525 * seed + 1013904223) % 4294967296
  | i + 1 => (1664525 * lcgState seed i + 1013904223) % 4294967296

/-- Modelled from the spec: the `i`-th unit-interval variate of the stream
seeded with `seed`. -/
def prngUnit (seed i : ℕ) : ℚ := (lcgState seed i : ℚ) / 4294967296

/-- Modelled from the spec: one randomized-search configuration — parameter
`j` of configuration `i` is sampled from its declared domain using the
dedicated stream position `i * P + j` (`P` the number of parameters), so each
(configuration, parameter) pair consumes its own variate. -/
noncomputable def drawConfig (space : List ParamSpec) (rng : ℕ → ℚ) (i : ℕ) :
    List (String × ℝ) :=
  space.enum.map (fun p =>
    (p.2.name, sampleDomain p.2.domain (rng (i * space.length + p.1))))

/-- Modelled from the spec: "randomized search draws `budget` independent
configurations". -/
noncomputable def drawCandidates (space : List ParamSpec) (rng : ℕ → ℚ)
    (budget : ℕ) : List (List (String × ℝ)) :=
  (List.range budget).map (drawConfig space rng)

/-- Modelled from the spec: randomized search — `budget` seeded draws followed
by the shared search core. -/
noncomputable def randomizedSearch {D L M : Type} [DecidableEq L]
    (train : List (String × ℝ) → List (D × L) → Option M)
    (score : M → List (D × L) → ℚ) (valid : List (String × ℝ) → Bool)
    (space : List ParamSpec) (seed budget : ℕ) (data : List (D × L))
    (k : ℕ) (stratified : Bool) :
    Except SearchError (SearchOutput (List (String × ℝ)) M) :=
  runSearch train score valid (drawCandidates space (prngUnit seed) budget)
    data k stratified

theorem ranked_configs_perm {C D L M : Type} [DecidableEq L]
    (train : C → List (D × L) → Option M) (score : M → List (D × L) → ℚ)
    (valid : C → Bool) (cands : List C) (data : List (D × L)) (k : ℕ)
    (stratified : Bool) (out : SearchOutput C M)
    (h : runSearch train score valid cands data k stratified = Except.ok out) :
    (out.ranked.map CandidateResult.config).Perm cands := by
  rw [runSearch] at h
  by_cases hcond : (if stratified then minClassCount data else data.length) < k
  · rw [if_pos hcond] at h
    cases h
  · rw [if_neg hcond] at h
    by_cases hval : cands.all valid = true
    · rw [if_pos hval] at h
      injection h with h
      subst h
      dsimp only
      rw [rankResults]
      have hperm := (List.mergeSort_perm
        (cands.map (fun c => (⟨c, candidateScore train score k data c⟩ :
          CandidateResult C))) (fun a b => decide (b.score ≤ a.score))).map
        CandidateResult.config
      simpa [List.map_map, Function.comp_def] using hperm
    · rw [if_neg hval] at h
      cases h

/-- C5: randomized search draws exactly `budget` candidate configurations and
evaluates them all; parameter `j` of configuration `i` is sampled from its
declared distribution (uniform over a discrete set, uniform or log-uniform
over declared bounds — see `sampleDomain`) at the dedicated stream position
`i * P + j`; distinct (configuration, parameter) pairs use pairwise distinct
stream positions, so every parameter of every configuration is sampled from
its own independent variate. -/
theorem randomized_search_draws_budget {D L M : Type} [DecidableEq L]
    (train : List (String × ℝ) → List (D × L) → Option M)
    (score : M → List (D × L) → ℚ) (valid : List (String × ℝ) → Bool)
    (space : List ParamSpec) (seed budget : ℕ) (data : List (D × L))
    (k : ℕ) (stratified : Bool) (hb : 1 ≤ budget)
    (hdata : ¬ (if stratified then minClassCount data else data.length) < k)
    (hvalid : (drawCandidates space (prngUnit seed) budget).all valid = true) :
    (drawCandidates space (prngUnit seed) budget).length = budget ∧
    (∀ i, i < budget →
      (drawCandidates space (prngUnit seed) budget).getD i [] =
        drawConfig space (prngUnit seed) i) ∧
    (∀ i j : ℕ, ∀ hj : j < space.length,
      (drawConfig space (prngUnit seed) i).getD j ("", 0) =
        ((space.get ⟨j, hj⟩).name,
          sampleDomain (space.get ⟨j, hj⟩).domain
            (prngUnit seed (i * space.length + j)))) ∧
    (∀ i1 j1 i2 j2 : ℕ, j1 < space.length → j2 < space.length →
      i1 * space.length + j1 = i2 * space.length + j2 → i1 = i2 ∧ j1 = j2) ∧
    (∃ out, randomizedSearch train score valid space seed budget data k
        stratified = Except.ok out ∧ out.ranked.length = budget) := by
  refine ⟨by simp [drawCandidates], ?_, ?_, ?_, ?_⟩
  · intro i hi
    rw [drawCandidates, List.getD_eq_getElem _ _ (by simpa using hi)]
    simp
  · intro i j hj
    rw [drawConfig]
    have hjm : j < (space.enum.map (fun p =>
        (p.2.name, sampleDomain p.2.domain
          (prngUnit seed (i * space.length + p.1))))).length := by
      simpa [List.enum_length] using hj
    rw [List.getD_eq_getElem _ _ hjm]
    have hje : j < space.enum.length := by simpa [List.enum_length] using hj
    rw [List.getElem_map, List.getElem_enum]
    simp [List.get_eq_getElem]
  · intro i1 j1 i2 j2 h1 h2 heq
    have hP : 0 < space.length := by omega
    have key : ∀ i j : ℕ, j < space.length →
        (i * space.length + j) / space.length = i ∧
        (i * space.length + j) % space.length = j := by
      intro i j hjP
      have hcomm : i * space.length + j = j + space.length * i := by ring
      constructor
      · rw [hcomm, Nat.add_mul_div_left _ _ hP, Nat.div_eq_of_lt hjP,
          Nat.zero_add]
      · rw [hcomm, Nat.add_mul_mod_self_left, Nat.mod_eq_of_lt hjP]
    obtain ⟨d1, m1⟩ := key i1 j1 h1
    obtain ⟨d2, m2⟩ := key i2 j2 h2
    exact ⟨by rw [← d1, heq, d2], by rw [← m1, heq, m2]⟩
  · rw [randomizedSearch, runSearch, if_neg hdata, if_pos hvalid]
    refine ⟨_, rfl, ?_⟩
    rw [rankResults, List.length_mergeSort, List.length_map]
    simp [drawCandidates]

/-- Witness for `randomized_search_draws_budget`: one discrete parameter,
budget 1. -/
theorem randomized_search_draws_budget_witness :
    (drawCandidates [⟨"C", ParamDomain.discreteSet [1]⟩] (prngUnit 0) 1).length = 1 ∧
    (∀ i, i < 1 →
      (drawCandidates [⟨"C", ParamDomain.discreteSet [1]⟩] (prngUnit 0) 1).getD i [] =
        drawConfig [⟨"C", ParamDomain.discreteSet [1]⟩] (prngUnit 0) i) ∧
    (∀ i j : ℕ,
      ∀ hj : j < ([⟨"C", ParamDomain.discreteSet [1]⟩] : List ParamSpec).length,
      (drawConfig [⟨"C", ParamDomain.discreteSet [1]⟩] (prngUnit 0) i).getD j ("", 0) =
        ((([⟨"C", ParamDomain.discreteSet [1]⟩] : List ParamSpec).get ⟨j, hj⟩).name,
          sampleDomain
            ((([⟨"C", ParamDomain.discreteSet [1]⟩] : List ParamSpec).get ⟨j, hj⟩).domain)
            (prngUnit 0 (i * ([⟨"C", ParamDomain.discreteSet [1]⟩] : List ParamSpec).length + j)))) ∧
    (∀ i1 j1 i2 j2 : ℕ,
      j1 < ([⟨"C", ParamDomain.discreteSet [1]⟩] : List ParamSpec).length →
      j2 < ([⟨"C", ParamDomain.discreteSet [1]⟩] : List ParamSpec).length →
      i1 * ([⟨"C", ParamDomain.discreteSet [1]⟩] : List ParamSpec).length + j1 =
        i2 * ([⟨"C", ParamDomain.discreteSet [1]⟩] : List ParamSpec).length + j2 →
      i1 = i2 ∧ j1 = j2) ∧
    (∃ out, randomizedSearch (fun _ (_ : List (ℕ × ℕ)) => some (0 : ℕ))
        (fun _ _ => (0 : ℚ)) (fun _ => true)
        [⟨"C", ParamDomain.discreteSet [1]⟩] 0 1
        [((0 : ℕ), (0 : ℕ))] 1 false = Except.ok out ∧
      out.ranked.length = 1) :=
  randomized_search_draws_budget (fun _ _ => some (0 : ℕ)) (fun _ _ => (0 : ℚ))
    (fun _ => true) [⟨"C", ParamDomain.discreteSet [1]⟩] 0 1
    [((0 : ℕ), (0 : ℕ))] 1 false (by decide) (by decide)
    (List.all_eq_true.mpr (fun _ _ => rfl))

/-- C6: determinism given a fixed seed — two randomized-search runs over the
same parameter space with the same seed and budget draw identical
configuration sequences, whatever their datasets, estimators, scorers or fold
counts: each run's evaluated configurations are a permutation of the single
seed-determined sequence `drawCandidates space (prngUnit seed) budget`, hence
of each other. -/
theorem randomized_search_deterministic_given_seed
    {D1 L1 M1 D2 L2 M2 : Type} [DecidableEq L1] [DecidableEq L2]
    (train1 : List (String × ℝ) → List (D1 × L1) → Option M1)
    (score1 : M1 → List (D1 × L1) → ℚ) (valid1 : List (String × ℝ) → Bool)
    (data1 : List (D1 × L1)) (k1 : ℕ) (str1 : Bool)
    (train2 : List (String × ℝ) → List (D2 × L2) → Option M2)
    (score2 : M2 → List (D2 × L2) → ℚ) (valid2 : List (String × ℝ) → Bool)
    (data2 : List (D2 × L2)) (k2 : ℕ) (str2 : Bool)
    (space : List ParamSpec) (seed budget : ℕ)
    (out1 : SearchOutput (List (String × ℝ)) M1)
    (out2 : SearchOutput (List (String × ℝ)) M2)
    (h1 : randomizedSearch train1 score1 valid1 space seed budget data1 k1
        str1 = Except.ok out1)
    (h2 : randomizedSearch train2 score2 valid2 space seed budget data2 k2
        str2 = Except.ok out2) :
    (out1.ranked.map CandidateResult.config).Perm
      (drawCandidates space (prngUnit seed) budget) ∧
    (out2.ranked.map CandidateResult.config).Perm
      (drawCandidates space (prngUnit seed) budget) ∧
    (out1.ranked.map CandidateResult.config).Perm
      (out2.ranked.map CandidateResult.config) := by
  rw [randomizedSearch] at h1 h2
  have p1 := ranked_configs_perm train1 score1 valid1 _ data1 k1 str1 out1 h1
  have p2 := ranked_configs_perm train2 score2 valid2 _ data2 k2 str2 out2 h2
  exact ⟨p1, p2, p1.trans p2.symm⟩

/-- Witness for `randomized_search_deterministic_given_seed`: two degenerate
runs (budget 0) with different estimators and datasets. -/
theorem randomized_search_deterministic_given_seed_witness :
    ((⟨[], none, none⟩ : SearchOutput (List (String × ℝ)) ℕ).ranked.map
        CandidateResult.config).Perm (drawCandidates [] (prngUnit 7) 0) ∧
    ((⟨[], none, none⟩ : SearchOutput (List (String × ℝ)) ℚ).ranked.map
        CandidateResult.config).Perm (drawCandidates [] (prngUnit 7) 0) ∧
    ((⟨[], none, none⟩ : SearchOutput (List (String × ℝ)) ℕ).ranked.map
        CandidateResult.config).Perm
      ((⟨[], none, none⟩ : SearchOutput (List (String × ℝ)) ℚ).ranked.map
        CandidateResult.config) :=
  randomized_search_deterministic_given_seed
    (fun _ (_ : List (ℕ × ℕ)) => some (0 : ℕ)) (fun _ _ => (0 : ℚ))
    (fun _ => true) [((0 : ℕ), (0 : ℕ))] 0 false
    (fun _ (_ : List (ℚ × ℕ)) => some (0 : ℚ)) (fun _ _ => (0 : ℚ))
    (fun _ => true) [] 0 false [] 7 0 ⟨[], none, none⟩ ⟨[], none, none⟩
    (by rw [randomizedSearch, runSearch]
        simp [drawCandidates, rankResults, selectBest])
    (by rw [randomizedSearch, runSearch]
        simp [drawCandidates, rankResults, selectBest])

end HandsOnML
